import Mathlib

/-!
# BoundedQueue: a bounded FIFO channel with an irreversible close signal

Shallow embedding of `src/bounded_queue.hpp` / `src/bounded_queue.cpp`, of the
producer, the consumer and `verify_items` of `src/driver.cpp`, and of the thread
handling of `main` in `src/main.cpp`.

Every member function of `BoundedQueue<T>` takes the single mutex `mtx` for its
whole body, and a call that waits on a condition variable gives the mutex up
without having modified any member.  The observable behaviour of the class is
therefore that of a sequential machine whose steps are *attempts*: an attempt
evaluates the loop condition of the call on the current state and either
reports that the caller has to wait (state untouched) or runs the rest of the
body to completion.  A blocked caller that is woken up is a further attempt on
the then current state.

* `std::queue<T> buffer` is a `List T`, front of the queue first;
* `size_t capacity` is a `Nat`;
* `bool closed` is a `Bool`.
-/

/-- The data members of `BoundedQueue<T>` that the mutex guards
(`bounded_queue.hpp`, lines 14-16). -/
structure BoundedQueue (T : Type) where
  /-- Contents of `std::queue<T> buffer`, the front element first. -/
  buffer : List T
  /-- The member `size_t capacity`. -/
  capacity : Nat
  /-- The member `bool closed`, `false` by its default member initialiser. -/
  closed : Bool
deriving DecidableEq

/-- How an attempt of `push` ends. -/
inductive PushResult where
  /-- The loop condition of `push` holds: the caller waits on `not_full`. -/
  | blocked
  /-- The statement `throw std::runtime_error(what)` was executed. -/
  | runtime_error (what : String)
  /-- The body ran to its end (`void` return). -/
  | returned
deriving DecidableEq

/-- How an attempt of `pop` ends. -/
inductive PopResult where
  /-- The loop condition of `pop` holds: the caller waits on `not_empty`. -/
  | blocked
  /-- The call returned the given `bool`. -/
  | returned (found : Bool)
deriving DecidableEq

/-- The constructor `BoundedQueue<T>::BoundedQueue(size_t cap) : capacity(cap) {}`
(`bounded_queue.cpp`, lines 4-5): empty buffer, `closed = false`. -/
def BoundedQueue.new {T : Type} (cap : Nat) : BoundedQueue T :=
  { buffer := [], capacity := cap, closed := false }

/-- The loop condition of `push`: `buffer.size() == capacity && !closed`
(`bounded_queue.cpp`, line 10). -/
def BoundedQueue.push_wait {T : Type} (q : BoundedQueue T) : Bool :=
  q.buffer.length == q.capacity && !q.closed

/-- The loop condition of `pop`: `buffer.empty() && !closed`
(`bounded_queue.cpp`, line 23). -/
def BoundedQueue.pop_wait {T : Type} (q : BoundedQueue T) : Bool :=
  q.buffer.isEmpty && !q.closed

/-- One attempt of `void push(const T& item)` (`bounded_queue.cpp`, lines 7-18):
wait while the loop condition holds, throw when closed, otherwise append the
item at the back of the buffer. -/
def BoundedQueue.push {T : Type} (q : BoundedQueue T) (item : T) :
    PushResult × BoundedQueue T :=
  if q.push_wait then (.blocked, q)
  else if q.closed then (.runtime_error "Queue is closed", q)
  else (.returned, { q with buffer := q.buffer ++ [item] })

/-- One attempt of `bool pop(T& item)` (`bounded_queue.cpp`, lines 20-33).  The
second argument is the value the out-parameter holds on entry; the result is the
outcome, the value of the out-parameter afterwards and the new state. -/
def BoundedQueue.pop {T : Type} (q : BoundedQueue T) (item : T) :
    PopResult × T × BoundedQueue T :=
  if q.pop_wait then (.blocked, item, q)
  else
    match q.buffer with
    | [] => (.returned false, item, q)
    | front :: rest => (.returned true, front, { q with buffer := rest })

/-- The member `void close()` (`bounded_queue.cpp`, lines 35-41): sets the flag;
the two `notify_all` calls touch no data member. -/
def BoundedQueue.close {T : Type} (q : BoundedQueue T) : BoundedQueue T :=
  { q with closed := true }

/-- A call made on the queue by some thread.  `pop` carries the value its
out-parameter holds on entry. -/
inductive Op (T : Type) where
  | push (item : T)
  | pop (item : T)
  | close
deriving DecidableEq

/-- What a call was observed to do: for `push` the item offered and the outcome,
for `pop` the outcome and the out-parameter afterwards. -/
inductive Event (T : Type) where
  | push (item : T) (r : PushResult)
  | pop (r : PopResult) (item : T)
  | close
deriving DecidableEq

/-- One atomic step of the queue: the critical section of one call. -/
def BoundedQueue.step {T : Type} (q : BoundedQueue T) : Op T → Event T × BoundedQueue T
  | .push item => (.push item (q.push item).1, (q.push item).2)
  | .pop item => (.pop (q.pop item).1 (q.pop item).2.1, (q.pop item).2.2)
  | .close => (.close, q.close)

/-- The steps of an interleaving, in the order in which they take the mutex:
the events observed and the final state. -/
def BoundedQueue.run {T : Type} (q : BoundedQueue T) : List (Op T) → List (Event T) × BoundedQueue T
  | [] => ([], q)
  | op :: ops => ((q.step op).1 :: ((q.step op).2.run ops).1, ((q.step op).2.run ops).2)

/-- The items whose `push` succeeded, in order. -/
def pushedItems {T : Type} : List (Event T) → List T
  | [] => []
  | .push item .returned :: es => item :: pushedItems es
  | _ :: es => pushedItems es

/-- The items handed out by the `pop` calls that returned `true`, in order. -/
def poppedItems {T : Type} : List (Event T) → List T
  | [] => []
  | .pop (.returned true) item :: es => item :: poppedItems es
  | _ :: es => poppedItems es

/-- The observations of the `pop` calls of a history, in order. -/
def popEvents {T : Type} : List (Event T) → List (PopResult × T)
  | [] => []
  | .pop r item :: es => (r, item) :: popEvents es
  | _ :: es => popEvents es

/-- The entry values of the out-parameters of the `pop` calls of a schedule. -/
def popInits {T : Type} : List (Op T) → List T
  | [] => []
  | .pop item :: ops => item :: popInits ops
  | _ :: ops => popInits ops

/-- Whether an event is a call that found its loop condition true and waits. -/
def Event.blocked {T : Type} : Event T → Bool
  | .push _ .blocked => true
  | .pop .blocked _ => true
  | _ => false

/-! ## The constructor call, threads and the drivers

`src/driver.cpp` (producer, consumer, `verify_items`) and `src/main.cpp`.
Values of type `int` are integers; where the source computes with them the
result is reduced to 32 bits two's complement by `wrap32`.  Signed overflow is
undefined in C++: every statement below that depends on the arithmetic assumes
the ranges in which `wrap32` is the identity. -/

/-- How the evaluation of a constructor call `BoundedQueue<T> q(cap)` ends: an
exception leaves the constructor, or the object exists. -/
inductive Construction (T : Type) where
  | threw (what : String)
  | object (q : BoundedQueue T)
deriving DecidableEq

/-- The constructor call (`bounded_queue.cpp`, lines 4-5).  The member
initialiser list copies `cap` and the body is empty: there is no `throw`. -/
def BoundedQueue.construct {T : Type} (cap : Nat) : Construction T :=
  .object (BoundedQueue.new cap)

/-- A schedule in which every call carries the index of the thread making it
is run by running its calls; every event keeps the thread index of its call. -/
def BoundedQueue.runTagged {T : Type} (q : BoundedQueue T) (sched : List (Nat × Op T)) :
    List (Nat × Event T) × BoundedQueue T :=
  ((sched.map Prod.fst).zip (q.run (sched.map Prod.snd)).1, (q.run (sched.map Prod.snd)).2)

/-- The successful pushes of a history with the thread that made each. -/
def taggedPushes {T : Type} : List (Nat × Event T) → List (Nat × T)
  | [] => []
  | (t, .push item .returned) :: es => (t, item) :: taggedPushes es
  | _ :: es => taggedPushes es

/-- The successful pops of a history with the thread that made each. -/
def taggedPops {T : Type} : List (Nat × Event T) → List (Nat × T)
  | [] => []
  | (t, .pop (.returned true) item) :: es => (t, item) :: taggedPops es
  | _ :: es => taggedPops es

/-- The items of thread `t` in a tagged list, in order. -/
def project {T : Type} (t : Nat) (l : List (Nat × T)) : List T :=
  (l.filter (fun p => p.1 == t)).map Prod.snd

/-- The value of an `int` expression whose exact result is `x`. -/
def wrap32 (x : Int) : Int :=
  (x + 2147483648) % 4294967296 - 2147483648

/-- The statement `int item = id * 1000000 + i;` (`driver.cpp`, line 20). -/
def producer_item (id i : Int) : Int :=
  wrap32 (wrap32 (id * 1000000) + i)

/-- The items `producer(queue, id, items, stats)` pushes, in order: the loop
`for(int i = 0; i < items; ++i)` of `driver.cpp`, lines 19-23. -/
def producer_items (id items : Int) : List Int :=
  (List.range items.toNat).map (fun (i : Nat) => producer_item id (i : Int))

/-- The expression `item / 1000000` (`driver.cpp`, line 65): C++ division
truncates towards zero. -/
def producer_id (item : Int) : Int :=
  item.tdiv 1000000

/-- The expression `item % 1000000` (`driver.cpp`, line 66). -/
def seq_num (item : Int) : Int :=
  item.tmod 1000000

/-- How a call of `verify_items` ends. -/
inductive VerifyResult where
  /-- A `return` statement was reached. -/
  | returned (b : Bool)
  /-- The constructor `std::vector<int>(num_producers, -1)` was asked for a
  negative number of elements, which as a `size_t` exceeds `max_size()`: it
  throws `std::length_error`. -/
  | length_error
  /-- The expression `last_seen_this_consumer[producer_id]` was evaluated with an index
  outside the vector: undefined behaviour. -/
  | out_of_bounds
deriving DecidableEq

/-- The locals `seen` and `total_items` of `verify_items`. -/
structure VerifyState where
  seen : List Int
  total_items : Int
deriving DecidableEq

/-- The inner loop `for (int item : consumer_items)` of `verify_items`
(`driver.cpp`, lines 54-76) with the vector `last_seen_this_consumer` as second
argument: either the function is left (`error`) or the loop ends (`ok`).  The
source increments `total_items` and inserts into `seen` before the checks that
follow them; both are locals that are dead once the function is left, so the
model carries them into the next iteration only. -/
def verify_consumer_items : List Int → List Int → VerifyState → Except VerifyResult VerifyState
  | [], _, st => .ok st
  | item :: rest, last_seen, st =>
    if item ∈ st.seen then .error (.returned false)
    else
      match (if 0 ≤ producer_id item then last_seen[(producer_id item).toNat]? else none) with
      | none => .error .out_of_bounds
      | some prev =>
        if seq_num item ≤ prev then .error (.returned false)
        else
          verify_consumer_items rest (last_seen.set (producer_id item).toNat (seq_num item))
            { seen := item :: st.seen, total_items := wrap32 (st.total_items + 1) }

/-- The outer loop over the consumers (`driver.cpp`, lines 50-77); every
iteration constructs `last_seen_this_consumer(num_producers, -1)`. -/
def verify_consumers : List (List Int) → Int → VerifyState → Except VerifyResult VerifyState
  | [], _, st => .ok st
  | consumer_items :: rest, num_producers, st =>
    if num_producers < 0 then .error .length_error
    else
      match verify_consumer_items consumer_items (List.replicate num_producers.toNat (-1)) st with
      | .error e => .error e
      | .ok st1 => verify_consumers rest num_producers st1

/-- The function `verify_items` (`driver.cpp`, lines 45-88). -/
def verify_items (per_consumer_items : List (List Int)) (num_producers items_per_producer : Int) :
    VerifyResult :=
  match verify_consumers per_consumer_items num_producers { seen := [], total_items := 0 } with
  | .error e => e
  | .ok st =>
    if st.total_items ≠ wrap32 (num_producers * items_per_producer) then .returned false
    else .returned true

/-- Check (a) of the verification pass: no item value occurs twice across the
concatenation of all consumers' lists. -/
def NoDuplicates (per_consumer_items : List (List Int)) : Prop :=
  per_consumer_items.flatten.Nodup

/-- Check (b) of the verification pass: within each consumer's list, for each
producer id `p = item / 1000000`, the sequence numbers `item % 1000000` are
strictly increasing. -/
def PerProducerIncreasing (per_consumer_items : List (List Int)) : Prop :=
  ∀ c ∈ per_consumer_items, ∀ p : Int,
    ((c.filter (fun item => producer_id item == p)).map seq_num).Pairwise (· < ·)

/-- Check (c) of the verification pass: the total number of items over all
consumers is `num_producers * items_per_producer`. -/
def TotalMatches (per_consumer_items : List (List Int)) (num_producers items_per_producer : Int) :
    Prop :=
  ((per_consumer_items.map List.length).sum : Int) = num_producers * items_per_producer

/-- The statements of `main` in `src/main.cpp` that act on the thread vector
or the queue, lines 26-42. -/
inductive MainStmt where
  /-- The call `threads.emplace_back(producer, std::ref(queue), id, items)`. -/
  | emplace_producer (id items : Int)
  /-- The call `threads.emplace_back(consumer, std::ref(queue), id)`. -/
  | emplace_consumer (id : Int)
  /-- The call `threads[index].join()`. -/
  | join (index : Nat)
  /-- The call `queue.close()`. -/
  | close
deriving DecidableEq

/-- The body of `main` (`main.cpp`, lines 26-42), statement by statement. -/
def main_body : List MainStmt :=
  [.emplace_producer 1 10, .emplace_producer 2 10,
   .emplace_consumer 1, .emplace_consumer 2, .emplace_consumer 3,
   .join 0, .join 1,
   .close,
   .join 2, .join 3, .join 3]

/-- What ends `main` before its `return`. -/
inductive MainFault where
  /-- The call `join()` on a thread that is not joinable throws
  `std::system_error`. -/
  | system_error (index : Nat)
  /-- The expression `threads[index]` with an index outside the vector. -/
  | out_of_bounds (index : Nat)
deriving DecidableEq

/-- What `main` tracks: for every element of `threads` whether it is joinable,
and how often `close()` was called. -/
structure MainState where
  joinable : List Bool
  closes : Nat
deriving DecidableEq

/-- One statement of `main`.  A thread is joinable from its construction until
`join()` returns; a `join()` is taken to return once its thread has ended. -/
def MainState.exec (s : MainState) : MainStmt → Except MainFault MainState
  | .emplace_producer _ _ => .ok { s with joinable := s.joinable ++ [true] }
  | .emplace_consumer _ => .ok { s with joinable := s.joinable ++ [true] }
  | .close => .ok { s with closes := s.closes + 1 }
  | .join index =>
    match s.joinable[index]? with
    | none => .error (.out_of_bounds index)
    | some false => .error (.system_error index)
    | some true => .ok { s with joinable := s.joinable.set index false }

/-- The statements in order until one faults: the state reached and the fault,
if any. -/
def MainState.execAll (s : MainState) : List MainStmt → MainState × Option MainFault
  | [] => (s, none)
  | stmt :: rest =>
    match s.exec stmt with
    | .error f => (s, some f)
    | .ok s1 => s1.execAll rest

/-- The indices passed to `join` in a statement list, in order. -/
def joinedIndices : List MainStmt → List Nat
  | [] => []
  | .join index :: rest => index :: joinedIndices rest
  | _ :: rest => joinedIndices rest

/-- What the inner loop of `verify_items` checks on one consumer's items, given
the set `seen` and the vector `last_seen` it starts with: no item is in `seen`
or occurs twice, and for every index of the vector the sequence numbers of the
items with that index increase strictly, starting above the entry stored. -/
def ConsumerAccepts (items last_seen seen : List Int) : Prop :=
  (∀ x ∈ items, x ∉ seen) ∧ items.Nodup ∧
  ∀ k prev, last_seen[k]? = some prev →
    List.Pairwise (· < ·)
      (prev :: (items.filter (fun x => (producer_id x).toNat == k)).map seq_num)

/-- What the outer loop of `verify_items` checks, given the set `seen` it
starts with: no item of any consumer is in `seen` or occurs twice, and every
consumer's items are increasing per producer. -/
def ConsumersAccept (per_consumer_items : List (List Int)) (seen : List Int) : Prop :=
  (∀ x ∈ per_consumer_items.flatten, x ∉ seen) ∧ NoDuplicates per_consumer_items ∧
    PerProducerIncreasing per_consumer_items

/-! ## Lemmas on single steps and on runs -/

/-- The pushed items of a history, one event at a time. -/
theorem pushedItems_cons {T : Type} (e : Event T) (es : List (Event T)) :
    pushedItems (e :: es) = pushedItems [e] ++ pushedItems es := by
  cases e with
  | push item r => cases r <;> simp [pushedItems]
  | pop r item => simp [pushedItems]
  | close => simp [pushedItems]

/-- The popped items of a history, one event at a time. -/
theorem poppedItems_cons {T : Type} (e : Event T) (es : List (Event T)) :
    poppedItems (e :: es) = poppedItems [e] ++ poppedItems es := by
  cases e with
  | push item r => simp [poppedItems]
  | pop r item =>
    cases r with
    | blocked => simp [poppedItems]
    | returned found => cases found <;> simp [poppedItems]
  | close => simp [poppedItems]

/-- Unfolding of a run at its first call. -/
theorem BoundedQueue.run_cons {T : Type} (q : BoundedQueue T) (op : Op T) (ops : List (Op T)) :
    q.run (op :: ops) = ((q.step op).1 :: ((q.step op).2.run ops).1, ((q.step op).2.run ops).2) :=
  rfl

/-- A run of two schedules one after the other. -/
theorem BoundedQueue.run_append {T : Type} (q : BoundedQueue T) (a b : List (Op T)) :
    q.run (a ++ b) = ((q.run a).1 ++ ((q.run a).2.run b).1, ((q.run a).2.run b).2) := by
  induction a generalizing q with
  | nil => simp [BoundedQueue.run]
  | cons op ops ih => simp [BoundedQueue.run, ih]

/-- A step keeps the ledger balanced: what was in the buffer plus what the step
pushed is what the step popped plus what is in the buffer now. -/
theorem BoundedQueue.step_ledger {T : Type} (q : BoundedQueue T) (op : Op T) :
    q.buffer ++ pushedItems [(q.step op).1] =
      poppedItems [(q.step op).1] ++ (q.step op).2.buffer := by
  cases op with
  | push item =>
    simp only [BoundedQueue.step, BoundedQueue.push]
    split
    · simp [pushedItems, poppedItems]
    · split <;> simp [pushedItems, poppedItems]
  | pop item =>
    simp only [BoundedQueue.step, BoundedQueue.pop]
    split
    · simp [pushedItems, poppedItems]
    · split <;> simp_all [pushedItems, poppedItems]
  | close => simp [BoundedQueue.step, BoundedQueue.close, pushedItems, poppedItems]

/-- The ledger of a whole run, from any starting state. -/
theorem BoundedQueue.run_ledger {T : Type} (q : BoundedQueue T) (ops : List (Op T)) :
    q.buffer ++ pushedItems (q.run ops).1 = poppedItems (q.run ops).1 ++ (q.run ops).2.buffer := by
  induction ops generalizing q with
  | nil => simp [BoundedQueue.run, pushedItems, poppedItems]
  | cons op ops ih =>
    rw [BoundedQueue.run_cons]
    simp only []
    rw [pushedItems_cons, poppedItems_cons, ← List.append_assoc, BoundedQueue.step_ledger,
      List.append_assoc, ih, List.append_assoc]

/-- No step changes the capacity, and a step keeps the buffer within it. -/
theorem BoundedQueue.step_bound {T : Type} (q : BoundedQueue T) (op : Op T)
    (h : q.buffer.length ≤ q.capacity) :
    (q.step op).2.capacity = q.capacity ∧ (q.step op).2.buffer.length ≤ q.capacity := by
  cases op with
  | push item =>
    rcases q with ⟨b, c, cl⟩
    simp only [BoundedQueue.step, BoundedQueue.push, BoundedQueue.push_wait] at h ⊢
    by_cases hfull : b.length = c
    · cases cl <;> simp [hfull]
    · cases cl
      · simp [hfull]
        omega
      · simp [hfull, h]
  | pop item =>
    simp only [BoundedQueue.step, BoundedQueue.pop]
    split
    · exact ⟨rfl, h⟩
    · split
      · exact ⟨rfl, h⟩
      · rename_i front rest hb
        simp [hb] at h ⊢
        omega
  | close => exact ⟨rfl, h⟩

/-- A run keeps the capacity and keeps the buffer within it. -/
theorem BoundedQueue.run_bound {T : Type} (q : BoundedQueue T) (ops : List (Op T))
    (h : q.buffer.length ≤ q.capacity) :
    (q.run ops).2.capacity = q.capacity ∧ (q.run ops).2.buffer.length ≤ q.capacity := by
  induction ops generalizing q with
  | nil => exact ⟨rfl, h⟩
  | cons op ops ih =>
    rw [BoundedQueue.run_cons]
    have hs := q.step_bound op h
    have hr := ih (q.step op).2 (by rw [hs.1]; exact hs.2)
    simp only []
    rw [hs.1] at hr
    exact hr

/-- Pushes that fit into an open queue all succeed and are appended in order. -/
theorem BoundedQueue.run_pushes {T : Type} (b : List T) (c : Nat) (xs : List T)
    (h : b.length + xs.length ≤ c) :
    (BoundedQueue.mk b c false).run (xs.map Op.push) =
      (xs.map (fun x => Event.push x PushResult.returned), BoundedQueue.mk (b ++ xs) c false) := by
  induction xs generalizing b with
  | nil => simp [BoundedQueue.run]
  | cons x xs ih =>
    simp only [List.length_cons] at h
    have hne : ¬ b.length = c := by omega
    have hstep : (BoundedQueue.mk b c false).step (Op.push x) =
        (Event.push x PushResult.returned, BoundedQueue.mk (b ++ [x]) c false) := by
      simp [BoundedQueue.step, BoundedQueue.push, BoundedQueue.push_wait, hne]
    rw [List.map_cons, BoundedQueue.run_cons, hstep]
    simp only []
    rw [ih (b ++ [x]) (by simp only [List.length_append, List.length_singleton]; omega)]
    simp

/-- As many pops as there are buffered items hand the buffer out in order,
whether the queue is open or closed. -/
theorem BoundedQueue.run_pops {T : Type} (b : List T) (c : Nat) (cl : Bool) (ds : List T)
    (h : ds.length = b.length) :
    (BoundedQueue.mk b c cl).run (ds.map Op.pop) =
      (b.map (fun x => Event.pop (PopResult.returned true) x), BoundedQueue.mk [] c cl) := by
  induction b generalizing ds with
  | nil =>
    cases ds with
    | nil => simp [BoundedQueue.run]
    | cons d ds => simp at h
  | cons x b ih =>
    cases ds with
    | nil => simp at h
    | cons d ds =>
      simp only [List.length_cons, Nat.add_right_cancel_iff] at h
      have hstep : (BoundedQueue.mk (x :: b) c cl).step (Op.pop d) =
          (Event.pop (PopResult.returned true) x, BoundedQueue.mk b c cl) := by
        simp [BoundedQueue.step, BoundedQueue.pop, BoundedQueue.pop_wait]
      rw [List.map_cons, BoundedQueue.run_cons, hstep]
      simp only []
      rw [ih ds h]
      simp

/-- On a closed queue every schedule drains the buffer from the front: the pops
hand out the buffered items in order and then return `false`, leaving their
out-parameter alone; pushes and further closes change nothing. -/
theorem BoundedQueue.run_closed {T : Type} (b : List T) (c : Nat) (ops : List (Op T)) :
    popEvents ((BoundedQueue.mk b c true).run ops).1 =
        (b.take (popInits ops).length).map (fun x => (PopResult.returned true, x)) ++
          ((popInits ops).drop b.length).map (fun d => (PopResult.returned false, d)) ∧
    ((BoundedQueue.mk b c true).run ops).2 = BoundedQueue.mk (b.drop (popInits ops).length) c true := by
  induction ops generalizing b with
  | nil => simp [BoundedQueue.run, popEvents, popInits]
  | cons op ops ih =>
    rw [BoundedQueue.run_cons]
    cases op with
    | push item =>
      have hstep : (BoundedQueue.mk b c true).step (Op.push item) =
          (Event.push item (PushResult.runtime_error "Queue is closed"), BoundedQueue.mk b c true) := by
        simp [BoundedQueue.step, BoundedQueue.push, BoundedQueue.push_wait]
      rw [hstep]
      simpa [popEvents, popInits] using ih b
    | close =>
      have hstep : (BoundedQueue.mk b c true).step Op.close =
          (Event.close, BoundedQueue.mk b c true) := by
        simp [BoundedQueue.step, BoundedQueue.close]
      rw [hstep]
      simpa [popEvents, popInits] using ih b
    | pop d =>
      cases b with
      | nil =>
        have hstep : (BoundedQueue.mk ([] : List T) c true).step (Op.pop d) =
            (Event.pop (PopResult.returned false) d, BoundedQueue.mk [] c true) := by
          simp [BoundedQueue.step, BoundedQueue.pop, BoundedQueue.pop_wait]
        rw [hstep]
        simpa [popEvents, popInits] using ih []
      | cons x b =>
        have hstep : (BoundedQueue.mk (x :: b) c true).step (Op.pop d) =
            (Event.pop (PopResult.returned true) x, BoundedQueue.mk b c true) := by
          simp [BoundedQueue.step, BoundedQueue.pop, BoundedQueue.pop_wait]
        rw [hstep]
        simpa [popEvents, popInits] using ih b

/-! ## The claims -/

/-- C1 (global FIFO, no loss, no duplication): for every capacity and every
schedule of push, pop and close steps run on a newly constructed queue, the
items whose push succeeded are, in order, the items handed out by successful
pops followed by the buffer contents; so the i-th item popped is the i-th item
pushed, and when the buffer is empty as many pops as pushes have succeeded. -/
theorem global_fifo {T : Type} (cap : Nat) (ops : List (Op T)) :
    pushedItems ((BoundedQueue.new cap).run ops).1 =
        poppedItems ((BoundedQueue.new cap).run ops).1 ++
          ((BoundedQueue.new cap).run ops).2.buffer ∧
    (∀ i, i < (poppedItems ((BoundedQueue.new cap).run ops).1).length →
        (poppedItems ((BoundedQueue.new cap).run ops).1)[i]? =
          (pushedItems ((BoundedQueue.new cap).run ops).1)[i]?) ∧
    (((BoundedQueue.new cap).run ops).2.buffer = [] →
        (poppedItems ((BoundedQueue.new cap).run ops).1).length =
          (pushedItems ((BoundedQueue.new cap).run ops).1).length) := by
  have h : pushedItems ((BoundedQueue.new cap : BoundedQueue T).run ops).1 =
      poppedItems ((BoundedQueue.new cap).run ops).1 ++ ((BoundedQueue.new cap).run ops).2.buffer := by
    have h0 := (BoundedQueue.new cap : BoundedQueue T).run_ledger ops
    rwa [show (BoundedQueue.new cap : BoundedQueue T).buffer = [] from rfl, List.nil_append] at h0
  refine ⟨h, ?_, ?_⟩
  · intro i hi
    rw [h, List.getElem?_append_left hi]
  · intro hb
    rw [h, hb, List.append_nil]

/-- C3 (capacity bound): in every state reached from a newly constructed queue
of capacity `C` by push, pop and close steps, the buffer holds at most `C`
items (and the capacity is still `C`). -/
theorem capacity_bound {T : Type} (C : Nat) (ops : List (Op T)) :
    ((BoundedQueue.new C : BoundedQueue T).run ops).2.buffer.length ≤ C ∧
    ((BoundedQueue.new C : BoundedQueue T).run ops).2.capacity = C := by
  have h := (BoundedQueue.new C : BoundedQueue T).run_bound ops (by simp [BoundedQueue.new])
  exact ⟨h.2, h.1⟩

/-- C2 (FIFO law): for every capacity `C` and every list `xs` of at most `C`
items, pushing `xs` in order onto a newly constructed queue and then calling pop
once per item makes every push return without blocking, makes every pop return
`true` with the items of `xs` in order, and leaves the buffer empty. -/
theorem fifo_law {T : Type} (C : Nat) (xs ds : List T) (hN : xs.length ≤ C)
    (hds : ds.length = xs.length) :
    (BoundedQueue.new C).run (xs.map Op.push ++ ds.map Op.pop) =
      (xs.map (fun x => Event.push x PushResult.returned) ++
          xs.map (fun x => Event.pop (PopResult.returned true) x),
        { buffer := [], capacity := C, closed := false }) := by
  rw [BoundedQueue.run_append]
  have hp := BoundedQueue.run_pushes ([] : List T) C xs (by simpa using hN)
  rw [List.nil_append] at hp
  rw [show (BoundedQueue.new C : BoundedQueue T) = BoundedQueue.mk [] C false from rfl, hp]
  simp only []
  rw [BoundedQueue.run_pops xs C false ds hds]

/-- The FIFO law at capacity 3 with the items 7, 8, 9. -/
theorem fifo_law_witness :
    (BoundedQueue.new 3).run ([7, 8, 9].map Op.push ++ [0, 0, 0].map Op.pop) =
      ([7, 8, 9].map (fun x => Event.push x PushResult.returned) ++
          [7, 8, 9].map (fun x => Event.pop (PopResult.returned true) x),
        ({ buffer := [], capacity := 3, closed := false } : BoundedQueue Int)) :=
  fifo_law 3 [7, 8, 9] [0, 0, 0] (by decide) (by decide)

/-- C4 (close rejects): on every closed queue, full or not, push throws the
queue-closed `std::runtime_error` and leaves buffer, capacity and flag as they
were; on a queue closed before any push the buffer stays empty. -/
theorem close_rejects {T : Type} (q : BoundedQueue T) (item : T) (h : q.closed = true) :
    q.push item = (PushResult.runtime_error "Queue is closed", q) ∧
    ∀ cap : Nat, (BoundedQueue.new cap).close.push item =
      (PushResult.runtime_error "Queue is closed",
        { buffer := [], capacity := cap, closed := true }) := by
  constructor
  · simp [BoundedQueue.push, BoundedQueue.push_wait, h]
  · intro cap
    simp [BoundedQueue.push, BoundedQueue.push_wait, BoundedQueue.close, BoundedQueue.new]

/-- A push onto a full closed queue of capacity 3 is rejected. -/
theorem close_rejects_witness :
    (BoundedQueue.mk [1, 2, 3] 3 true).push (4 : Int) =
        (PushResult.runtime_error "Queue is closed", BoundedQueue.mk [1, 2, 3] 3 true) ∧
    ∀ cap : Nat, (BoundedQueue.new cap).close.push (4 : Int) =
      (PushResult.runtime_error "Queue is closed",
        { buffer := [], capacity := cap, closed := true }) :=
  close_rejects (BoundedQueue.mk [1, 2, 3] 3 true) 4 rfl

/-- C5 (close then drain): from any state with buffer `b` of `k` items, after
`close()` and under any schedule of further pops, pushes and closes, the first
`k` pops return `true` with the items of `b` in order and every later pop
returns `false` with its out-parameter untouched; none blocks, and the state
after the schedule is the closed queue holding what of `b` is not yet popped. -/
theorem close_then_drain {T : Type} (q : BoundedQueue T) (ops : List (Op T)) :
    popEvents (q.close.run ops).1 =
        (q.buffer.take (popInits ops).length).map (fun x => (PopResult.returned true, x)) ++
          ((popInits ops).drop q.buffer.length).map (fun d => (PopResult.returned false, d)) ∧
    (q.close.run ops).2 =
      { buffer := q.buffer.drop (popInits ops).length, capacity := q.capacity, closed := true } :=
  BoundedQueue.run_closed q.buffer q.capacity ops

/-- C6 (pop is determined by occupancy and flag): on a non-empty buffer pop
returns `true`, writes the head to the out-parameter and removes exactly the
head; on an empty closed queue it returns `false` at once; it blocks exactly
when the buffer is empty and the queue open; so `false` is returned only on a
closed queue.  No outcome of pop is an exception. -/
theorem pop_determined {T : Type} (q : BoundedQueue T) (item : T) :
    (∀ front rest, q.buffer = front :: rest →
        q.pop item = (PopResult.returned true, front, { q with buffer := rest })) ∧
    (q.buffer = [] ∧ q.closed = true → q.pop item = (PopResult.returned false, item, q)) ∧
    ((q.pop item).1 = PopResult.blocked ↔ q.buffer = [] ∧ q.closed = false) ∧
    ((q.pop item).1 = PopResult.returned false → q.closed = true) := by
  rcases q with ⟨b, c, cl⟩
  cases b <;> cases cl <;> simp [BoundedQueue.pop, BoundedQueue.pop_wait]

/-- C7 (push on an open queue): it blocks exactly when the buffer holds
`capacity` items; otherwise it returns and the buffer is the old one with the
item appended, capacity and flag unchanged.  Scenario A: capacity 3, pushes of
1, 2, 3 succeed, a push of 4 blocks, pop returns 1, the push of 4 then succeeds
and the next pops return 2, 3, 4. -/
theorem push_open {T : Type} (q : BoundedQueue T) (item : T) (h : q.closed = false) :
    ((q.push item).1 = PushResult.blocked ↔ q.buffer.length = q.capacity) ∧
    (q.buffer.length ≠ q.capacity →
      q.push item = (PushResult.returned,
        { buffer := q.buffer ++ [item], capacity := q.capacity, closed := false })) ∧
    ((BoundedQueue.new 3 : BoundedQueue Int).run
        [.push 1, .push 2, .push 3, .push 4, .pop 0, .push 4, .pop 0, .pop 0, .pop 0]).1 =
      [.push 1 .returned, .push 2 .returned, .push 3 .returned, .push 4 .blocked,
       .pop (.returned true) 1, .push 4 .returned,
       .pop (.returned true) 2, .pop (.returned true) 3, .pop (.returned true) 4] := by
  rcases q with ⟨b, c, cl⟩
  simp only at h
  subst h
  refine ⟨?_, ?_, by decide⟩
  · by_cases hfull : b.length = c <;> simp [BoundedQueue.push, BoundedQueue.push_wait, hfull]
  · intro hne
    simp only [ne_eq] at hne
    simp [BoundedQueue.push, BoundedQueue.push_wait, hne]

/-- A push onto an open queue of capacity 3 holding two items. -/
theorem push_open_witness :
    (((BoundedQueue.mk [1, 2] 3 false).push (3 : Int)).1 = PushResult.blocked ↔
        [1, 2].length = 3) ∧
    ([1, 2].length ≠ 3 →
      (BoundedQueue.mk [1, 2] 3 false).push (3 : Int) = (PushResult.returned,
        { buffer := [1, 2] ++ [3], capacity := 3, closed := false })) ∧
    ((BoundedQueue.new 3 : BoundedQueue Int).run
        [.push 1, .push 2, .push 3, .push 4, .pop 0, .push 4, .pop 0, .pop 0, .pop 0]).1 =
      [.push 1 .returned, .push 2 .returned, .push 3 .returned, .push 4 .blocked,
       .pop (.returned true) 1, .push 4 .returned,
       .pop (.returned true) 2, .pop (.returned true) 3, .pop (.returned true) 4] :=
  push_open (BoundedQueue.mk [1, 2] 3 false) 3 rfl

/-- C8 (the closed flag is monotonic): a newly constructed queue is open, and on
a closed queue every push, pop and close step, hence every schedule, leaves the
flag set. -/
theorem closed_monotonic {T : Type} :
    (∀ cap : Nat, (BoundedQueue.new cap : BoundedQueue T).closed = false) ∧
    (∀ q : BoundedQueue T, q.closed = true →
      (∀ item, (q.push item).2.closed = true ∧
          (q.push item).1 = PushResult.runtime_error "Queue is closed") ∧
      (∀ item, (q.pop item).2.2.closed = true) ∧
      q.close.closed = true ∧
      (∀ ops, (q.run ops).2.closed = true)) := by
  refine ⟨fun _ => rfl, ?_⟩
  rintro ⟨b, c, cl⟩ h
  simp only at h
  subst h
  refine ⟨?_, ?_, rfl, ?_⟩
  · intro item
    simp [BoundedQueue.push, BoundedQueue.push_wait]
  · intro item
    cases b <;> simp [BoundedQueue.pop, BoundedQueue.pop_wait]
  · intro ops
    rw [(BoundedQueue.run_closed b c ops).2]

/-- C9 (close never discards buffered data): `close()` yields a closed state
with the same buffer contents, in the same order, and the same capacity. -/
theorem close_keeps_buffer {T : Type} (q : BoundedQueue T) :
    q.close = { buffer := q.buffer, capacity := q.capacity, closed := true } ∧
    q.close.closed = true ∧ q.close.buffer = q.buffer ∧ q.close.capacity = q.capacity :=
  ⟨rfl, rfl, rfl, rfl⟩

/-- C10 (close is idempotent): closing twice is closing once, and closing an
already closed queue returns the state unchanged. -/
theorem close_idempotent {T : Type} (q : BoundedQueue T) :
    q.close.close = q.close ∧ (q.closed = true → q.close = q) := by
  rcases q with ⟨b, c, cl⟩
  refine ⟨rfl, ?_⟩
  intro h
  simp only at h
  subst h
  rfl

/-! ## Constructor, waiters, capacity zero, the demo `main`, the item encoding -/

/-- A step on a closed queue leaves it closed, keeps the capacity and does not
block. -/
theorem BoundedQueue.step_closed {T : Type} (b : List T) (c : Nat) (op : Op T) :
    ((BoundedQueue.mk b c true).step op).1.blocked = false ∧
    ∃ b1, ((BoundedQueue.mk b c true).step op).2 = BoundedQueue.mk b1 c true := by
  cases op with
  | push item =>
    simp [BoundedQueue.step, BoundedQueue.push, BoundedQueue.push_wait, Event.blocked]
  | pop item =>
    cases b <;> simp [BoundedQueue.step, BoundedQueue.pop, BoundedQueue.pop_wait, Event.blocked]
  | close => simp [BoundedQueue.step, BoundedQueue.close, Event.blocked]

/-- No call of a schedule run on a closed queue blocks. -/
theorem BoundedQueue.run_closed_not_blocked {T : Type} (b : List T) (c : Nat) (ops : List (Op T)) :
    ∀ e ∈ ((BoundedQueue.mk b c true).run ops).1, e.blocked = false := by
  induction ops generalizing b with
  | nil => simp [BoundedQueue.run]
  | cons op ops ih =>
    obtain ⟨hnb, b1, hb1⟩ := BoundedQueue.step_closed b c op
    intro e he
    rw [BoundedQueue.run_cons] at he
    simp only [List.mem_cons] at he
    rcases he with he | he
    · rw [he]; exact hnb
    · rw [hb1] at he
      exact ih b1 e he

/-- A step of a queue of capacity 0 with an empty buffer: nothing is pushed and
the buffer stays empty. -/
theorem BoundedQueue.step_capacity_zero {T : Type} (cl : Bool) (op : Op T) :
    pushedItems [((BoundedQueue.mk ([] : List T) 0 cl).step op).1] = [] ∧
    ∃ cl1, ((BoundedQueue.mk ([] : List T) 0 cl).step op).2 = BoundedQueue.mk [] 0 cl1 := by
  cases op with
  | push item =>
    cases cl <;> simp [BoundedQueue.step, BoundedQueue.push, BoundedQueue.push_wait, pushedItems]
  | pop item =>
    cases cl <;> simp [BoundedQueue.step, BoundedQueue.pop, BoundedQueue.pop_wait, pushedItems]
  | close => simp [BoundedQueue.step, BoundedQueue.close, pushedItems]

/-- A schedule run on a queue of capacity 0 with an empty buffer: no push
succeeds, and the buffer is empty at the end. -/
theorem BoundedQueue.run_capacity_zero {T : Type} (cl : Bool) (ops : List (Op T)) :
    pushedItems ((BoundedQueue.mk ([] : List T) 0 cl).run ops).1 = [] ∧
    ∃ cl1, ((BoundedQueue.mk ([] : List T) 0 cl).run ops).2 = BoundedQueue.mk [] 0 cl1 := by
  induction ops generalizing cl with
  | nil => exact ⟨rfl, cl, rfl⟩
  | cons op ops ih =>
    obtain ⟨hp, cl1, hcl1⟩ := (BoundedQueue.step_capacity_zero cl op : _ ∧ ∃ cl1, ((BoundedQueue.mk ([] : List T) 0 cl).step op).2 = BoundedQueue.mk [] 0 cl1)
    rw [BoundedQueue.run_cons]
    simp only []
    rw [pushedItems_cons, hp, hcl1]
    exact ⟨by simpa using (ih cl1).1, (ih cl1).2⟩

/-- A successful push in a history is among its pushed items. -/
theorem mem_pushedItems {T : Type} (item : T) (es : List (Event T))
    (h : Event.push item PushResult.returned ∈ es) : item ∈ pushedItems es := by
  induction es with
  | nil => simp at h
  | cons e es ih =>
    rw [pushedItems_cons]
    simp only [List.mem_cons] at h
    rcases h with h | h
    · rw [← h]; simp [pushedItems]
    · exact List.mem_append_right _ (ih h)

/-- Without overflow the producer's item is `id * 1000000 + i`. -/
theorem producer_item_eq (id i : Int) (hid : 0 ≤ id) (hi : 0 ≤ i)
    (hr : id * 1000000 + i < 2147483648) : producer_item id i = id * 1000000 + i := by
  unfold producer_item wrap32
  omega

/-- Decoding an item `id * 1000000 + i` with `0 ≤ i < 1000000` and `0 ≤ id`. -/
theorem decode_item (id i : Int) (hid : 0 ≤ id) (hi : 0 ≤ i) (hi2 : i < 1000000) :
    producer_id (id * 1000000 + i) = id ∧ seq_num (id * 1000000 + i) = i := by
  unfold producer_id seq_num
  rw [Int.tdiv_eq_ediv (by omega) (by omega), Int.tmod_eq_emod (by omega) (by omega)]
  omega

/-- C11, as stated, fails: construction with capacity 0 is not rejected.  The
constructor call yields an open queue of capacity 0 with an empty buffer, on
which `close` and `pop` work as on any other queue. -/
theorem construct_zero_accepted :
    (BoundedQueue.construct 0 : Construction Int) =
        Construction.object { buffer := [], capacity := 0, closed := false } ∧
    ((BoundedQueue.new 0 : BoundedQueue Int).close.pop 7).1 = PopResult.returned false :=
  ⟨rfl, by decide⟩

/-- C11, amended: construction never fails.  For every capacity, 0 included,
the constructor call yields an open queue with an empty buffer and the capacity
given; no outcome of it is an exception. -/
theorem construct_never_fails {T : Type} (cap : Nat) :
    (BoundedQueue.construct cap : Construction T) =
        Construction.object { buffer := [], capacity := cap, closed := false } ∧
    ∀ what : String, (BoundedQueue.construct cap : Construction T) ≠ Construction.threw what := by
  refine ⟨rfl, ?_⟩
  intro what h
  simp [BoundedQueue.construct] at h

/-- C12 (close releases every waiter): for every state `q`, open or closed, full
or empty, the state `q.close` that `close()` leaves is closed and neither loop
condition holds in it; a push made or re-checked there fails with the
queue-closed error and leaves the state alone, a pop returns an item or `false`,
and no call of any schedule that follows the close blocks.  The same holds in
every state whose flag is set, however it was reached. -/
theorem close_releases_waiters {T : Type} (q : BoundedQueue T) :
    (q.close.closed = true ∧ q.close.push_wait = false ∧ q.close.pop_wait = false ∧
      (∀ item, q.close.push item = (PushResult.runtime_error "Queue is closed", q.close)) ∧
      (∀ item, (q.close.pop item).1 = PopResult.returned true ∨
        (q.close.pop item).1 = PopResult.returned false) ∧
      (∀ ops, ∀ e ∈ (q.close.run ops).1, e.blocked = false)) ∧
    (q.closed = true →
      q.push_wait = false ∧ q.pop_wait = false ∧
      (∀ item, (q.push item).1 = PushResult.runtime_error "Queue is closed") ∧
      (∀ item, (q.pop item).1 = PopResult.returned true ∨
        (q.pop item).1 = PopResult.returned false) ∧
      (∀ ops, ∀ e ∈ (q.run ops).1, e.blocked = false)) := by
  rcases q with ⟨b, c, cl⟩
  have hclosed : ∀ b1 : List T,
      (BoundedQueue.mk b1 c true).push_wait = false ∧ (BoundedQueue.mk b1 c true).pop_wait = false ∧
      (∀ item, (BoundedQueue.mk b1 c true).push item =
        (PushResult.runtime_error "Queue is closed", BoundedQueue.mk b1 c true)) ∧
      (∀ item, ((BoundedQueue.mk b1 c true).pop item).1 = PopResult.returned true ∨
        ((BoundedQueue.mk b1 c true).pop item).1 = PopResult.returned false) ∧
      (∀ ops, ∀ e ∈ ((BoundedQueue.mk b1 c true).run ops).1, e.blocked = false) := by
    intro b1
    refine ⟨by simp [BoundedQueue.push_wait], by simp [BoundedQueue.pop_wait], ?_, ?_, ?_⟩
    · intro item
      simp [BoundedQueue.push, BoundedQueue.push_wait]
    · intro item
      cases b1 <;> simp [BoundedQueue.pop, BoundedQueue.pop_wait]
    · intro ops
      exact BoundedQueue.run_closed_not_blocked b1 c ops
  have hc : (BoundedQueue.mk b c cl).close = BoundedQueue.mk b c true := rfl
  constructor
  · rw [hc]
    exact ⟨rfl, hclosed b⟩
  · intro h
    simp only at h
    subst h
    obtain ⟨h1, h2, h3, h4, h5⟩ := hclosed b
    exact ⟨h1, h2, fun item => by rw [h3 item], h4, h5⟩

/-- A producer waiting on a full open queue of capacity 2 and a consumer waiting
on an empty open queue are both released by `close()`: the push then fails and
the pop returns `false`. -/
theorem close_releases_waiters_witness :
    (BoundedQueue.mk [(1 : Int), 2] 2 false).push_wait = true ∧
    ((BoundedQueue.mk [(1 : Int), 2] 2 false).push 3).1 = PushResult.blocked ∧
    (BoundedQueue.mk [(1 : Int), 2] 2 false).close.push_wait = false ∧
    (BoundedQueue.mk [(1 : Int), 2] 2 false).close.push 3 =
      (PushResult.runtime_error "Queue is closed", (BoundedQueue.mk [(1 : Int), 2] 2 false).close) ∧
    (BoundedQueue.mk ([] : List Int) 2 false).pop_wait = true ∧
    ((BoundedQueue.mk ([] : List Int) 2 false).pop 0).1 = PopResult.blocked ∧
    (BoundedQueue.mk ([] : List Int) 2 false).close.pop_wait = false ∧
    ((BoundedQueue.mk ([] : List Int) 2 false).close.pop 0).1 = PopResult.returned false :=
  ⟨by decide, by decide,
    (close_releases_waiters (BoundedQueue.mk [(1 : Int), 2] 2 false)).1.2.1,
    (close_releases_waiters (BoundedQueue.mk [(1 : Int), 2] 2 false)).1.2.2.2.1 3,
    by decide, by decide,
    (close_releases_waiters (BoundedQueue.mk ([] : List Int) 2 false)).1.2.2.1,
    by decide⟩

/-- C16 (capacity 0 never accepts an item): in every state reached from
`BoundedQueue(0)` the buffer is empty and no push of the schedule has succeeded;
while the queue is open the loop condition of push is true and every push
blocks, and once it is closed every push fails with the queue-closed error. -/
theorem capacity_zero_never_accepts {T : Type} (ops : List (Op T)) :
    ((BoundedQueue.new 0).run ops).2.buffer = [] ∧
    pushedItems ((BoundedQueue.new 0).run ops).1 = [] ∧
    (∀ item, Event.push item PushResult.returned ∉ ((BoundedQueue.new 0).run ops).1) ∧
    (((BoundedQueue.new 0).run ops).2.closed = false →
      ((BoundedQueue.new 0).run ops).2.push_wait = true ∧
      ∀ item, ((BoundedQueue.new 0).run ops).2.push item =
        (PushResult.blocked, ((BoundedQueue.new 0).run ops).2)) ∧
    (((BoundedQueue.new 0).run ops).2.closed = true →
      ∀ item, ((BoundedQueue.new 0).run ops).2.push item =
        (PushResult.runtime_error "Queue is closed", ((BoundedQueue.new 0).run ops).2)) := by
  obtain ⟨hp, cl1, hcl1⟩ := (BoundedQueue.run_capacity_zero false ops : pushedItems ((BoundedQueue.mk ([] : List T) 0 false).run ops).1 = [] ∧ _)
  rw [show (BoundedQueue.new 0 : BoundedQueue T) = BoundedQueue.mk [] 0 false from rfl]
  refine ⟨by rw [hcl1], hp, ?_, ?_, ?_⟩
  · intro item hmem
    have := mem_pushedItems item _ hmem
    rw [hp] at this
    simp at this
  · rw [hcl1]
    intro hc
    simp only at hc
    subst hc
    simp [BoundedQueue.push, BoundedQueue.push_wait]
  · rw [hcl1]
    intro hc
    simp only at hc
    subst hc
    simp [BoundedQueue.push, BoundedQueue.push_wait]

/-- C17 on the code: the statements of `main` join the thread at index 3 twice
and the thread at index 4 never.  The second `threads[3].join()` is called on a
thread that is no longer joinable and throws `std::system_error`; at that point
the third consumer (index 4) is still joinable. -/
theorem main_joins_index_three_twice :
    joinedIndices main_body = [0, 1, 2, 3, 3] ∧
    (joinedIndices main_body).count 3 = 2 ∧
    (joinedIndices main_body).count 4 = 0 ∧
    (MainState.mk [] 0).execAll main_body =
      ({ joinable := [false, false, false, false, true], closes := 1 },
        some (MainFault.system_error 3)) := by
  decide

/-- C18 (the item encoding is decodable and in bounds): for `0 ≤ id <
num_producers` and `0 ≤ i < 1000000` with `id * 1000000 + i` within `int`, the
producer's item decodes to `id` and `i`, the index `verify_items` uses lies
inside the vector `last_seen_this_consumer`, and another pair `(id', i')` of
the same kind with the same item is the same pair. -/
theorem encoding_decodable (num_producers id i : Int) (hid : 0 ≤ id) (hlt : id < num_producers)
    (hi : 0 ≤ i) (hi2 : i < 1000000) (hr : id * 1000000 + i < 2147483648) :
    producer_id (producer_item id i) = id ∧ seq_num (producer_item id i) = i ∧
    (0 ≤ producer_id (producer_item id i) ∧ producer_id (producer_item id i) < num_producers) ∧
    (List.replicate num_producers.toNat (-1 : Int))[(producer_id (producer_item id i)).toNat]? =
      some (-1) ∧
    (∀ id1 i1 : Int, 0 ≤ id1 → 0 ≤ i1 → i1 < 1000000 → id1 * 1000000 + i1 < 2147483648 →
      producer_item id1 i1 = producer_item id i → id1 = id ∧ i1 = i) := by
  have hd := decode_item id i hid hi hi2
  rw [producer_item_eq id i hid hi hr]
  refine ⟨hd.1, hd.2, ⟨by rw [hd.1]; exact hid, by rw [hd.1]; exact hlt⟩, ?_, ?_⟩
  · rw [hd.1, List.getElem?_replicate]
    have : id.toNat < num_producers.toNat := by omega
    simp [this]
  · intro id1 i1 hid1 hi1 hi12 hr1 heq
    rw [producer_item_eq id1 i1 hid1 hi1 hr1] at heq
    have hd1 := decode_item id1 i1 hid1 hi1 hi12
    rw [heq] at hd1
    exact ⟨hd1.1.symm.trans hd.1, hd1.2.symm.trans hd.2⟩

/-- The item of producer 1 with sequence number 5, checked by two producers. -/
theorem encoding_decodable_witness :
    producer_id (producer_item 1 5) = 1 ∧ seq_num (producer_item 1 5) = 5 ∧
    (0 ≤ producer_id (producer_item 1 5) ∧ producer_id (producer_item 1 5) < 2) ∧
    (List.replicate (2 : Int).toNat (-1 : Int))[(producer_id (producer_item 1 5)).toNat]? =
      some (-1) ∧
    (∀ id1 i1 : Int, 0 ≤ id1 → 0 ≤ i1 → i1 < 1000000 → id1 * 1000000 + i1 < 2147483648 →
      producer_item id1 i1 = producer_item 1 5 → id1 = 1 ∧ i1 = 5) :=
  encoding_decodable 2 1 5 (by decide) (by decide) (by decide) (by decide) (by decide)

/-! ## The verification pass `verify_items` -/

/-- An empty list of items is accepted. -/
theorem consumerAccepts_nil (last_seen seen : List Int) : ConsumerAccepts [] last_seen seen := by
  refine ⟨by simp, List.nodup_nil, ?_⟩
  intro k prev _
  simp

/-- Acceptance of a list of items, one item at a time: the head is new, lies above the
entry stored for its producer, and the rest is accepted with the head recorded. -/
theorem consumerAccepts_cons (x : Int) (rest last_seen seen : List Int) (prev : Int)
    (hprev : last_seen[(producer_id x).toNat]? = some prev) :
    ConsumerAccepts (x :: rest) last_seen seen ↔
      x ∉ seen ∧ prev < seq_num x ∧
        ConsumerAccepts rest (last_seen.set (producer_id x).toNat (seq_num x)) (x :: seen) := by
  have hlen : (producer_id x).toNat < last_seen.length := by
    by_contra hge
    rw [List.getElem?_eq_none (by omega)] at hprev
    exact absurd hprev (by simp)
  constructor
  · rintro ⟨h1, h2, h3⟩
    have hx := h3 _ prev hprev
    simp only [List.filter_cons, beq_self_eq_true, if_true, List.map_cons,
      List.pairwise_cons] at hx
    rw [List.nodup_cons] at h2
    refine ⟨h1 x (List.mem_cons_self _ _), hx.1 _ (List.mem_cons_self _ _), ?_, h2.2, ?_⟩
    · intro y hy
      simp only [List.mem_cons, not_or]
      exact ⟨fun h => h2.1 (h ▸ hy), h1 y (List.mem_cons_of_mem _ hy)⟩
    · intro k p hk
      rw [List.getElem?_set] at hk
      by_cases hkk : (producer_id x).toNat = k
      · subst hkk
        simp only [if_true, hlen, Option.some.injEq] at hk
        subst hk
        exact List.pairwise_cons.2 hx.2
      · simp only [hkk, if_false] at hk
        have := h3 k p hk
        simpa [List.filter_cons, hkk] using this
  · rintro ⟨hxs, hlt, h1, h2, h3⟩
    refine ⟨?_, ?_, ?_⟩
    · intro y hy
      rcases List.mem_cons.1 hy with rfl | hy
      · exact hxs
      · exact fun h => h1 y hy (List.mem_cons_of_mem _ h)
    · rw [List.nodup_cons]
      exact ⟨fun h => h1 x h (List.mem_cons_self _ _), h2⟩
    · intro k p hk
      by_cases hkk : (producer_id x).toNat = k
      · subst hkk
        rw [hprev] at hk
        simp only [Option.some.injEq] at hk
        subst hk
        have hs := h3 (producer_id x).toNat (seq_num x) (by rw [List.getElem?_set]; simp [hlen])
        simp only [List.filter_cons, beq_self_eq_true, if_true, List.map_cons]
        rw [List.pairwise_cons]
        refine ⟨?_, hs⟩
        intro y hy
        rcases List.mem_cons.1 hy with rfl | hy
        · exact hlt
        · exact lt_trans hlt ((List.pairwise_cons.1 hs).1 y hy)
      · have := h3 k p (by rw [List.getElem?_set]; simp [hkk, hk])
        simpa [List.filter_cons, hkk] using this

/-- Incrementing a counter below `INT_MAX` does not overflow. -/
theorem wrap32_succ (t : Int) (h0 : 0 ≤ t) (h : t + 1 < 2147483648) : wrap32 (t + 1) = t + 1 := by
  unfold wrap32
  omega

/-- The inner loop of `verify_items` ends normally on the lists it accepts and leaves
the function with `return false` on all others, when no index is out of bounds
and the counter does not overflow. -/
theorem verify_consumer_items_spec (items last_seen : List Int) (st : VerifyState)
    (hb : ∀ x ∈ items, 0 ≤ producer_id x ∧ (producer_id x).toNat < last_seen.length)
    (ht0 : 0 ≤ st.total_items) (ht : st.total_items + items.length < 2147483648) :
    (ConsumerAccepts items last_seen st.seen →
      verify_consumer_items items last_seen st =
        .ok { seen := items.reverse ++ st.seen, total_items := st.total_items + items.length }) ∧
    (¬ ConsumerAccepts items last_seen st.seen →
      verify_consumer_items items last_seen st = .error (.returned false)) := by
  induction items generalizing last_seen st with
  | nil =>
    refine ⟨fun _ => ?_, fun h => absurd (consumerAccepts_nil _ _) h⟩
    simp [verify_consumer_items]
  | cons x rest ih =>
    obtain ⟨hp0, hplt⟩ := hb x (List.mem_cons_self _ _)
    have hprev : last_seen[(producer_id x).toNat]? = some last_seen[(producer_id x).toNat] :=
      List.getElem?_eq_getElem hplt
    have hiff := consumerAccepts_cons x rest last_seen st.seen _ hprev
    simp only [List.length_cons, Nat.cast_add, Nat.cast_one] at ht
    by_cases hx : x ∈ st.seen
    · refine ⟨fun h => absurd hx (hiff.1 h).1, fun _ => ?_⟩
      simp [verify_consumer_items, hx]
    · by_cases hs : seq_num x ≤ last_seen[(producer_id x).toNat]
      · refine ⟨fun h => absurd (hiff.1 h).2.1 (not_lt.2 hs), fun _ => ?_⟩
        simp [verify_consumer_items, hx, hp0, hprev, hs]
      · have hrec : verify_consumer_items (x :: rest) last_seen st =
            verify_consumer_items rest (last_seen.set (producer_id x).toNat (seq_num x))
              { seen := x :: st.seen, total_items := st.total_items + 1 } := by
          simp [verify_consumer_items, hx, hp0, hprev, hs, wrap32_succ st.total_items ht0 (by omega)]
        have ih1 := ih (last_seen.set (producer_id x).toNat (seq_num x))
          { seen := x :: st.seen, total_items := st.total_items + 1 }
          (fun y hy => by
            rw [List.length_set]
            exact hb y (List.mem_cons_of_mem _ hy))
          (by simp only; omega) (by simp only; omega)
        rw [hrec]
        constructor
        · intro h
          rw [ih1.1 (hiff.1 h).2.2]
          simp only [List.reverse_cons, List.append_assoc, List.singleton_append, List.length_cons,
            Nat.cast_add, Nat.cast_one]
          congr 2
          omega
        · intro h
          apply ih1.2
          intro hacc
          exact h (hiff.2 ⟨hx, not_le.1 hs, hacc⟩)

/-- A non-negative item has a non-negative producer id. -/
theorem producer_id_nonneg (x : Int) (h : 0 ≤ x) : 0 ≤ producer_id x := by
  unfold producer_id
  rw [Int.tdiv_eq_ediv h (by omega)]
  omega

/-- A non-negative item has a non-negative sequence number. -/
theorem seq_num_nonneg (x : Int) (h : 0 ≤ x) : 0 ≤ seq_num x := by
  unfold seq_num
  rw [Int.tmod_eq_emod h (by omega)]
  omega

/-- On items with a non-negative producer id, selecting by the vector index is
selecting by the producer id. -/
theorem filter_index_eq (c : List Int) (k : Nat) (hb : ∀ x ∈ c, 0 ≤ x) :
    c.filter (fun x => (producer_id x).toNat == k) =
      c.filter (fun item => producer_id item == (k : Int)) := by
  apply List.filter_congr
  intro x hx
  have := producer_id_nonneg x (hb x hx)
  rw [Bool.eq_iff_iff]
  simp only [beq_iff_eq]
  omega

/-- Acceptance from the freshly constructed vector, all entries `-1`, in the words
of the verification pass. -/
theorem consumerAccepts_replicate (c seen : List Int) (n : Nat)
    (hb : ∀ x ∈ c, 0 ≤ x ∧ producer_id x < n) :
    ConsumerAccepts c (List.replicate n (-1)) seen ↔
      (∀ x ∈ c, x ∉ seen) ∧ c.Nodup ∧
        ∀ p : Int, ((c.filter (fun item => producer_id item == p)).map seq_num).Pairwise (· < ·) := by
  have hnn : ∀ x ∈ c, 0 ≤ x := fun x hx => (hb x hx).1
  unfold ConsumerAccepts
  refine and_congr Iff.rfl (and_congr Iff.rfl ?_)
  constructor
  · intro h p
    by_cases hp : 0 ≤ p ∧ p < n
    · have hk := h p.toNat (-1) (by rw [List.getElem?_replicate]; simp; omega)
      rw [filter_index_eq c _ hnn, Int.toNat_of_nonneg hp.1] at hk
      exact (List.pairwise_cons.1 hk).2
    · have : c.filter (fun item => producer_id item == p) = [] := by
        rw [List.filter_eq_nil_iff]
        intro x hx
        have h1 := producer_id_nonneg x (hnn x hx)
        have h2 := (hb x hx).2
        simp only [beq_iff_eq]
        omega
      rw [this]
      simp
  · intro h k prev hk
    rw [List.getElem?_replicate] at hk
    split at hk
    · simp only [Option.some.injEq] at hk
      subst hk
      rw [filter_index_eq c _ hnn, List.pairwise_cons]
      refine ⟨?_, h k⟩
      intro y hy
      obtain ⟨x, hx, rfl⟩ := List.mem_map.1 hy
      have := seq_num_nonneg x (hnn x (List.mem_of_mem_filter hx))
      omega
    · simp at hk

/-- No consumer: nothing to check. -/
theorem consumersAccept_nil (seen : List Int) : ConsumersAccept [] seen := by
  refine ⟨by simp, by simp [NoDuplicates], ?_⟩
  intro c hc
  simp at hc

/-- Acceptance of the consumers, one consumer at a time. -/
theorem consumersAccept_cons (c : List Int) (cs : List (List Int)) (seen : List Int) :
    ConsumersAccept (c :: cs) seen ↔
      ((∀ x ∈ c, x ∉ seen) ∧ c.Nodup ∧
        ∀ p : Int, ((c.filter (fun item => producer_id item == p)).map seq_num).Pairwise (· < ·)) ∧
      ConsumersAccept cs (c.reverse ++ seen) := by
  unfold ConsumersAccept NoDuplicates PerProducerIncreasing
  simp only [List.flatten_cons, List.mem_append, List.nodup_append, List.mem_cons,
    List.mem_reverse, not_or, forall_eq_or_imp]
  constructor
  · rintro ⟨h1, ⟨h2, h3, h4⟩, h5, h6⟩
    refine ⟨⟨fun x hx => h1 x (Or.inl hx), h2, h5⟩, ?_, h3, h6⟩
    intro x hx
    exact ⟨fun hxc => h4 hxc hx, h1 x (Or.inr hx)⟩
  · rintro ⟨⟨h1, h2, h3⟩, h4, h5, h6⟩
    refine ⟨?_, ⟨h2, h5, ?_⟩, h3, h6⟩
    · intro x hx
      rcases hx with hx | hx
      · exact h1 x hx
      · exact (h4 x hx).2
    · intro x hxc hxf
      exact (h4 x hxf).1 hxc

/-- The outer loop of `verify_items` ends normally on the consumers it accepts and
leaves the function with `return false` on all others. -/
theorem verify_consumers_spec (pci : List (List Int)) (np : Int) (st : VerifyState)
    (hnp : 0 ≤ np) (hb : ∀ c ∈ pci, ∀ x ∈ c, 0 ≤ x ∧ producer_id x < np)
    (ht0 : 0 ≤ st.total_items)
    (ht : st.total_items + ((pci.map List.length).sum : Nat) < 2147483648) :
    (ConsumersAccept pci st.seen →
      verify_consumers pci np st =
        .ok { seen := pci.flatten.reverse ++ st.seen,
              total_items := st.total_items + ((pci.map List.length).sum : Nat) }) ∧
    (¬ ConsumersAccept pci st.seen →
      verify_consumers pci np st = .error (.returned false)) := by
  induction pci generalizing st with
  | nil =>
    refine ⟨fun _ => ?_, fun h => absurd (consumersAccept_nil _) h⟩
    simp [verify_consumers]
  | cons c cs ih =>
    simp only [List.map_cons, List.sum_cons, Nat.cast_add] at ht ⊢
    have hbc : ∀ x ∈ c, 0 ≤ x ∧ producer_id x < (np.toNat : Int) := by
      intro x hx
      rw [Int.toNat_of_nonneg hnp]
      exact hb c (List.mem_cons_self _ _) x hx
    have hinner := verify_consumer_items_spec c (List.replicate np.toNat (-1)) st
      (fun x hx => by
        have h1 := producer_id_nonneg x (hbc x hx).1
        have h2 := (hbc x hx).2
        rw [List.length_replicate]
        omega)
      ht0 (by omega)
    have hrep := consumerAccepts_replicate c st.seen np.toNat hbc
    have hcons := consumersAccept_cons c cs st.seen
    by_cases hacc : ConsumerAccepts c (List.replicate np.toNat (-1)) st.seen
    · have hstep : verify_consumers (c :: cs) np st =
          verify_consumers cs np
            { seen := c.reverse ++ st.seen, total_items := st.total_items + c.length } := by
        simp [verify_consumers, not_lt.2 hnp, hinner.1 hacc]
      have ih1 := ih { seen := c.reverse ++ st.seen, total_items := st.total_items + c.length }
        (fun d hd => hb d (List.mem_cons_of_mem _ hd)) (by simp only; omega) (by simp only; omega)
      rw [hstep]
      constructor
      · intro h
        rw [ih1.1 (hcons.1 h).2]
        simp only [List.flatten_cons, List.reverse_append, List.append_assoc]
        congr 2
        omega
      · intro h
        apply ih1.2
        intro h2
        exact h (hcons.2 ⟨hrep.1 hacc, h2⟩)
    · refine ⟨fun h => absurd (hrep.2 (hcons.1 h).1) hacc, fun _ => ?_⟩
      simp [verify_consumers, not_lt.2 hnp, hinner.2 hacc]

/-- C13, as stated, fails: with one consumer that saw nothing, `num_producers =
-1` and `items_per_producer = 0` every item (there is none) is non-negative with
producer id below `num_producers`, and the three checks hold, yet `verify_items`
does not return `true`: constructing `last_seen_this_consumer(-1, -1)` throws
`std::length_error`. -/
theorem verify_items_negative_producers :
    (∀ c ∈ [([] : List Int)], ∀ x ∈ c, 0 ≤ x ∧ producer_id x < -1) ∧
    NoDuplicates [[]] ∧ PerProducerIncreasing [[]] ∧ TotalMatches [[]] (-1) 0 ∧
    verify_items [[]] (-1) 0 = VerifyResult.length_error ∧
    verify_items [[]] (-1) 0 ≠ VerifyResult.returned true := by
  refine ⟨by simp, by simp [NoDuplicates], ?_, by simp [TotalMatches], by decide, by decide⟩
  intro c hc p
  simp only [List.mem_singleton] at hc
  subst hc
  simp

/-- Within the ranges in which no `int` overflows and no vector index is out of
bounds, `verify_items` returns, and it returns `true` exactly when the three
checks of the verification pass hold. -/
theorem verify_items_spec (per_consumer_items : List (List Int))
    (num_producers items_per_producer : Int)
    (hnp : 0 ≤ num_producers)
    (hitems : ∀ c ∈ per_consumer_items, ∀ x ∈ c, 0 ≤ x ∧ producer_id x < num_producers)
    (hcount : (per_consumer_items.map List.length).sum < 2147483648)
    (hprod : -2147483648 ≤ num_producers * items_per_producer ∧
      num_producers * items_per_producer < 2147483648) :
    (verify_items per_consumer_items num_producers items_per_producer = VerifyResult.returned true ↔
      NoDuplicates per_consumer_items ∧ PerProducerIncreasing per_consumer_items ∧
        TotalMatches per_consumer_items num_producers items_per_producer) ∧
    (verify_items per_consumer_items num_producers items_per_producer = VerifyResult.returned true ∨
      verify_items per_consumer_items num_producers items_per_producer =
        VerifyResult.returned false) := by
  have hspec := verify_consumers_spec per_consumer_items num_producers
    { seen := [], total_items := 0 } hnp hitems (le_refl _) (by simp only; omega)
  have hw : wrap32 (num_producers * items_per_producer) = num_producers * items_per_producer := by
    unfold wrap32
    omega
  have hacc : ConsumersAccept per_consumer_items [] ↔
      NoDuplicates per_consumer_items ∧ PerProducerIncreasing per_consumer_items := by
    simp [ConsumersAccept]
  by_cases h : ConsumersAccept per_consumer_items []
  · have hv : verify_items per_consumer_items num_producers items_per_producer =
        if ((per_consumer_items.map List.length).sum : Int) ≠ num_producers * items_per_producer
        then VerifyResult.returned false else VerifyResult.returned true := by
      simp only [verify_items, hspec.1 h, hw, zero_add]
    rw [hv]
    by_cases hc : ((per_consumer_items.map List.length).sum : Int) =
        num_producers * items_per_producer
    · rw [if_neg (not_not.2 hc)]
      exact ⟨⟨fun _ => ⟨(hacc.1 h).1, (hacc.1 h).2, hc⟩, fun _ => rfl⟩, Or.inl rfl⟩
    · rw [if_pos hc]
      refine ⟨⟨fun hf => ?_, fun hx => absurd hx.2.2 hc⟩, Or.inr rfl⟩
      simp at hf
  · have hv : verify_items per_consumer_items num_producers items_per_producer =
        VerifyResult.returned false := by
      simp only [verify_items, hspec.2 h]
    rw [hv]
    refine ⟨?_, Or.inr rfl⟩
    constructor
    · intro hf
      simp at hf
    · rintro ⟨ha, hb, _⟩
      exact absurd (hacc.2 ⟨ha, hb⟩) h

/-- C13, amended: for `num_producers ≥ 0`, items that are non-negative with
`item / 1000000 < num_producers`, and an item count and a product
`num_producers * items_per_producer` within `int`, `verify_items` returns, and
it returns `true` exactly when (a) no item occurs twice across all consumers,
(b) per consumer and producer the sequence numbers are strictly increasing and
(c) the item count is `num_producers * items_per_producer`. -/
theorem verify_items_iff (per_consumer_items : List (List Int))
    (num_producers items_per_producer : Int)
    (hnp : 0 ≤ num_producers)
    (hitems : ∀ c ∈ per_consumer_items, ∀ x ∈ c, 0 ≤ x ∧ producer_id x < num_producers)
    (hcount : (per_consumer_items.map List.length).sum < 2147483648)
    (hprod : -2147483648 ≤ num_producers * items_per_producer ∧
      num_producers * items_per_producer < 2147483648) :
    (verify_items per_consumer_items num_producers items_per_producer = VerifyResult.returned true ↔
      NoDuplicates per_consumer_items ∧ PerProducerIncreasing per_consumer_items ∧
        TotalMatches per_consumer_items num_producers items_per_producer) ∧
    (verify_items per_consumer_items num_producers items_per_producer = VerifyResult.returned true ∨
      verify_items per_consumer_items num_producers items_per_producer =
        VerifyResult.returned false) :=
  verify_items_spec per_consumer_items num_producers items_per_producer hnp hitems hcount hprod

/-- Two consumers, two producers, three items each, accepted. -/
theorem verify_items_iff_witness :
    (verify_items [[0, 1000000, 1], [2, 1000001, 1000002]] 2 3 = VerifyResult.returned true ↔
      NoDuplicates [[0, 1000000, 1], [2, 1000001, 1000002]] ∧
        PerProducerIncreasing [[0, 1000000, 1], [2, 1000001, 1000002]] ∧
        TotalMatches [[0, 1000000, 1], [2, 1000001, 1000002]] 2 3) ∧
    (verify_items [[0, 1000000, 1], [2, 1000001, 1000002]] 2 3 = VerifyResult.returned true ∨
      verify_items [[0, 1000000, 1], [2, 1000001, 1000002]] 2 3 = VerifyResult.returned false) :=
  verify_items_iff [[0, 1000000, 1], [2, 1000001, 1000002]] 2 3 (by decide) (by decide)
    (by decide) (by decide)

/-- The state half of the hand-off between push and pop: a pop that returns
`true` on a full open queue leaves a state in which the loop condition of push
is false, and a push that returns on an empty open queue leaves a state in which
the loop condition of pop is false.  Which waiting thread is woken, and when it
runs, is a matter of the condition variables and the scheduler and is not part
of this model. -/
theorem BoundedQueue.handoff_enabled {T : Type} (q : BoundedQueue T) (item : T) :
    (q.closed = false → q.buffer.length = q.capacity →
      (q.pop item).1 = PopResult.returned true → (q.pop item).2.2.push_wait = false) ∧
    (q.closed = false → q.buffer = [] →
      (q.push item).1 = PushResult.returned → (q.push item).2.pop_wait = false) := by
  rcases q with ⟨b, c, cl⟩
  constructor
  · intro hc hfull hpop
    simp only at hc hfull
    subst hc
    cases b with
    | nil => simp [BoundedQueue.pop, BoundedQueue.pop_wait] at hpop
    | cons x rest =>
      simp only [List.length_cons] at hfull
      have : ¬ rest.length = c := by omega
      simp [BoundedQueue.pop, BoundedQueue.pop_wait, BoundedQueue.push_wait, this]
  · intro hc hb hpush
    simp only at hc hb
    subst hc hb
    by_cases h0 : c = 0
    · subst h0
      simp [BoundedQueue.push, BoundedQueue.push_wait] at hpush
    · have : ¬ 0 = c := fun h => h0 h.symm
      simp [BoundedQueue.push, BoundedQueue.push_wait, BoundedQueue.pop_wait, this]

/-! ## The driver run: tagged histories and the verification pass -/

/-- A run observes one event per call. -/
theorem BoundedQueue.run_length {T : Type} (q : BoundedQueue T) (ops : List (Op T)) :
    (q.run ops).1.length = ops.length := by
  induction ops generalizing q with
  | nil => rfl
  | cons op ops ih => simp [BoundedQueue.run, ih]

/-- Forgetting the thread indices of a tagged run gives the run. -/
theorem BoundedQueue.runTagged_events {T : Type} (q : BoundedQueue T) (sched : List (Nat × Op T)) :
    (q.runTagged sched).1.map Prod.snd = (q.run (sched.map Prod.snd)).1 := by
  unfold BoundedQueue.runTagged
  apply List.map_snd_zip
  rw [BoundedQueue.run_length, List.length_map, List.length_map]

/-- The tagged successful pushes are the pushed items. -/
theorem taggedPushes_map_snd {T : Type} (tev : List (Nat × Event T)) :
    (taggedPushes tev).map Prod.snd = pushedItems (tev.map Prod.snd) := by
  induction tev with
  | nil => rfl
  | cons e es ih =>
    rcases e with ⟨t, e⟩
    cases e with
    | push item r => cases r <;> simp [taggedPushes, pushedItems, ih]
    | pop r item => simp [taggedPushes, pushedItems, ih]
    | close => simp [taggedPushes, pushedItems, ih]

/-- The tagged successful pops are the popped items. -/
theorem taggedPops_map_snd {T : Type} (tev : List (Nat × Event T)) :
    (taggedPops tev).map Prod.snd = poppedItems (tev.map Prod.snd) := by
  induction tev with
  | nil => rfl
  | cons e es ih =>
    rcases e with ⟨t, e⟩
    cases e with
    | push item r => simp [taggedPops, poppedItems, ih]
    | pop r item =>
      cases r with
      | blocked => simp [taggedPops, poppedItems, ih]
      | returned found => cases found <;> simp [taggedPops, poppedItems, ih]
    | close => simp [taggedPops, poppedItems, ih]

/-- Membership in the projection of a tagged list onto a thread. -/
theorem mem_project {T : Type} (t : Nat) (x : T) (l : List (Nat × T)) :
    x ∈ project t l ↔ (t, x) ∈ l := by
  unfold project
  simp only [List.mem_map, List.mem_filter, beq_iff_eq]
  constructor
  · rintro ⟨⟨t1, x1⟩, ⟨hmem, ht⟩, hx⟩
    simp only at ht hx
    subst ht hx
    exact hmem
  · intro h
    exact ⟨(t, x), ⟨h, rfl⟩, rfl⟩

/-- The items of one thread are a subsequence of all items. -/
theorem project_sublist {T : Type} (t : Nat) (l : List (Nat × T)) :
    (project t l).Sublist (l.map Prod.snd) :=
  List.Sublist.map _ (List.filter_sublist _)

/-- A sum over `List.range` as a sum over `Finset.range`. -/
theorem list_range_sum (f : Nat → Nat) (n : Nat) :
    ((List.range n).map f).sum = ∑ j ∈ Finset.range n, f j := by
  induction n with
  | zero => simp
  | succ n ih =>
    rw [List.range_succ, List.map_append, List.sum_append, ih, Finset.sum_range_succ]
    simp

/-- A tagged list whose tags lie in `[lo, lo + n)` is as long as its `n`
projections together. -/
theorem length_eq_sum_project {T : Type} (l : List (Nat × T)) (lo n : Nat)
    (h : ∀ p ∈ l, lo ≤ p.1 ∧ p.1 < lo + n) :
    l.length = ∑ j ∈ Finset.range n, (project (lo + j) l).length := by
  induction l with
  | nil => simp [project]
  | cons p l ih =>
    have hp := h p (List.mem_cons_self _ _)
    have hstep : ∀ j, (project (lo + j) (p :: l)).length =
        (project (lo + j) l).length + (if p.1 - lo = j then 1 else 0) := by
      intro j
      unfold project
      by_cases hj : p.1 = lo + j
      · have : p.1 - lo = j := by omega
        simp [List.filter_cons, hj]
      · have : ¬ p.1 - lo = j := by omega
        simp [List.filter_cons, hj, this]
    simp only [hstep, Finset.sum_add_distrib, Finset.sum_ite_eq, Finset.mem_range]
    rw [← ih (fun q hq => h q (List.mem_cons_of_mem _ hq))]
    have : p.1 - lo < n := by omega
    simp [this]

/-- A list is free of duplicates if each of its classes under `f` is. -/
theorem nodup_of_filter_classes {α β : Type} [DecidableEq β] (f : α → β) (l : List α)
    (h : ∀ b, (l.filter (fun x => f x == b)).Nodup) : l.Nodup := by
  induction l with
  | nil => exact List.nodup_nil
  | cons x l ih =>
    rw [List.nodup_cons]
    constructor
    · intro hx
      have hb := h (f x)
      simp only [List.filter_cons, beq_self_eq_true, if_true, List.nodup_cons] at hb
      exact hb.1 (List.mem_filter.2 ⟨hx, by simp⟩)
    · apply ih
      intro b
      exact List.Nodup.sublist (List.Sublist.filter _ (List.sublist_cons_self x l)) (h b)

/-- The items a producer pushes. -/
theorem mem_producer_items (id : Int) (K : Nat) (x : Int) :
    x ∈ producer_items id K ↔ ∃ i : Nat, i < K ∧ x = producer_item id i := by
  unfold producer_items
  simp only [Int.toNat_ofNat, List.mem_map, List.mem_range]
  constructor
  · rintro ⟨i, hi, rfl⟩
    exact ⟨i, hi, rfl⟩
  · rintro ⟨i, hi, rfl⟩
    exact ⟨i, hi, rfl⟩

/-- The sequence number of a producer item within `int`. -/
theorem seq_num_producer_item (id i : Nat) (hi : i < 1000000)
    (hr : (id + 1) * 1000000 ≤ 2147483648) :
    seq_num (producer_item id i) = i := by
  have h1 : producer_item (id : Int) (i : Int) = (id : Int) * 1000000 + (i : Int) :=
    producer_item_eq (id : Int) (i : Int) (by omega) (by omega) (by omega)
  rw [h1]
  exact (decode_item id i (by omega) (by omega) (by omega)).2

/-- The sequence numbers of what a producer pushes are `0, 1, ..., K - 1`. -/
theorem producer_items_seq (id K : Nat) (hK : K ≤ 1000000)
    (hr : (id + 1) * 1000000 ≤ 2147483648) :
    (producer_items id K).map seq_num = (List.range K).map (fun (i : Nat) => (i : Int)) := by
  unfold producer_items
  rw [Int.toNat_ofNat, List.map_map]
  refine List.map_congr_left (fun i hi => ?_)
  rw [List.mem_range] at hi
  exact (Function.comp_apply).trans (seq_num_producer_item id i (by omega) hr)

/-- Every successful push of a run in which producer `id < P` pushed exactly
its `K` items decodes to the thread that made it. -/
theorem producers_decode (TP : List (Nat × Int)) (P K : Nat) (hK : K ≤ 1000000)
    (hP : P * 1000000 < 2147483648)
    (hprod : ∀ id, id < P → project id TP = producer_items id K)
    (htags : ∀ p ∈ TP, p.1 < P) :
    ∀ p ∈ TP, 0 ≤ p.2 ∧ producer_id p.2 = (p.1 : Int) := by
  rintro ⟨t, x⟩ hmem
  have ht := htags _ hmem
  simp only at ht ⊢
  have hx : x ∈ producer_items t K := by
    rw [← hprod t ht, mem_project]
    exact hmem
  obtain ⟨i, hi, hxi⟩ := (mem_producer_items (t : Int) K x).1 hx
  have hxe : x = (t : Int) * 1000000 + (i : Int) :=
    hxi.trans (producer_item_eq (t : Int) (i : Int) (by omega) (by omega) (by omega))
  have hd := (decode_item t i (by omega) (by omega) (by omega)).1
  rw [← hxe] at hd
  exact ⟨by omega, hd⟩

/-- In such a run the pushed items of each producer id carry strictly
increasing sequence numbers. -/
theorem pushed_classes_increasing (TP : List (Nat × Int)) (P K : Nat) (hK : K ≤ 1000000)
    (hP : P * 1000000 < 2147483648)
    (hprod : ∀ id, id < P → project id TP = producer_items id K)
    (htags : ∀ p ∈ TP, p.1 < P) (p : Int) :
    (((TP.map Prod.snd).filter (fun x => producer_id x == p)).map seq_num).Pairwise (· < ·) := by
  have hdec := producers_decode TP P K hK hP hprod htags
  rw [List.filter_map]
  by_cases hp : 0 ≤ p ∧ p < P
  · have hcongr : TP.filter ((fun x => producer_id x == p) ∘ Prod.snd) =
        TP.filter (fun q => q.1 == p.toNat) := by
      apply List.filter_congr
      intro q hq
      have := (hdec q hq).2
      rw [Bool.eq_iff_iff]
      simp only [Function.comp_apply, beq_iff_eq]
      omega
    rw [hcongr]
    have hproj := hprod p.toNat (by omega)
    unfold project at hproj
    rw [hproj, producer_items_seq _ _ hK (by omega), List.pairwise_map]
    exact List.Pairwise.imp (fun h => by exact_mod_cast h) (List.pairwise_lt_range K)
  · have : TP.filter ((fun x => producer_id x == p) ∘ Prod.snd) = [] := by
      rw [List.filter_eq_nil_iff]
      intro q hq
      have h1 := (hdec q hq).2
      have h2 := htags q hq
      simp only [Function.comp_apply, beq_iff_eq]
      omega
    rw [this]
    simp

/-- Facts about a drained driver run that the verification pass relies on: the
popped items are the pushed items, they are free of duplicates, each decodes to
a producer below `P`, their classes by producer id are increasing, and there are
`P * K` of them. -/
theorem drained_run_facts (P K cap : Nat) (sched : List (Nat × Op Int))
    (hK : K ≤ 1000000) (hP : P * 1000000 < 2147483648)
    (hprod : ∀ id, id < P →
      project id (taggedPushes ((BoundedQueue.new cap).runTagged sched).1) = producer_items id K)
    (hpushers : ∀ p ∈ taggedPushes ((BoundedQueue.new cap).runTagged sched).1, p.1 < P)
    (hdrained : ((BoundedQueue.new cap).runTagged sched).2.buffer = []) :
    ((taggedPops ((BoundedQueue.new cap).runTagged sched).1).map Prod.snd).Nodup ∧
    (∀ x ∈ (taggedPops ((BoundedQueue.new cap).runTagged sched).1).map Prod.snd,
      0 ≤ x ∧ producer_id x < (P : Int)) ∧
    (∀ p : Int, ((((taggedPops ((BoundedQueue.new cap).runTagged sched).1).map Prod.snd).filter
      (fun x => producer_id x == p)).map seq_num).Pairwise (· < ·)) ∧
    (taggedPops ((BoundedQueue.new cap).runTagged sched).1).length = P * K := by
  have hxs : (taggedPops ((BoundedQueue.new cap).runTagged sched).1).map Prod.snd =
      (taggedPushes ((BoundedQueue.new cap).runTagged sched).1).map Prod.snd := by
    rw [taggedPops_map_snd, taggedPushes_map_snd, BoundedQueue.runTagged_events]
    have hl := (BoundedQueue.new cap : BoundedQueue Int).run_ledger (sched.map Prod.snd)
    have hd : ((BoundedQueue.new cap : BoundedQueue Int).run (sched.map Prod.snd)).2.buffer = [] :=
      hdrained
    rw [hd, List.append_nil] at hl
    rw [← hl]
    rfl
  have hcls := pushed_classes_increasing _ P K hK hP hprod hpushers
  have hdec := producers_decode _ P K hK hP hprod hpushers
  have hlen : (taggedPushes ((BoundedQueue.new cap).runTagged sched).1).length = P * K := by
    rw [length_eq_sum_project _ 0 P (fun p hp => ⟨Nat.zero_le _, by have := hpushers p hp; omega⟩)]
    rw [Finset.sum_congr rfl (fun j hj => by
      rw [Nat.zero_add, hprod j (Finset.mem_range.1 hj)])]
    simp [producer_items]
  rw [hxs]
  refine ⟨?_, ?_, hcls, ?_⟩
  · apply nodup_of_filter_classes producer_id
    intro b
    exact List.Nodup.of_map seq_num (List.Pairwise.imp (fun h => ne_of_lt h) (hcls b))
  · intro x hx
    obtain ⟨q, hq, rfl⟩ := List.mem_map.1 hx
    have h1 := hdec q hq
    have h2 := hpushers q hq
    exact ⟨h1.1, by rw [h1.2]; exact_mod_cast h2⟩
  · have h1 := congrArg List.length hxs
    rw [List.length_map, List.length_map] at h1
    rw [h1, hlen]

/-- C15 (passing verification is a corollary of global FIFO): run any schedule
of the driver on a newly constructed queue in which the threads `0 .. P-1` are
the producers and `P .. P+M-1` the consumers.  If each producer `id` has pushed
exactly its items `id * 1000000 + i`, `i = 0 .. K-1`, in order, with `K ≤
1000000` and `P * 1000000` within `int`, and the queue is drained at the end,
then `verify_items` applied to the lists the consumers collected returns
`true`. -/
theorem verification_passes (P K M cap : Nat) (sched : List (Nat × Op Int))
    (hK : K ≤ 1000000) (hP : P * 1000000 < 2147483648)
    (hprod : ∀ id, id < P →
      project id (taggedPushes ((BoundedQueue.new cap).runTagged sched).1) = producer_items id K)
    (hpushers : ∀ p ∈ taggedPushes ((BoundedQueue.new cap).runTagged sched).1, p.1 < P)
    (hpoppers : ∀ p ∈ taggedPops ((BoundedQueue.new cap).runTagged sched).1,
      P ≤ p.1 ∧ p.1 < P + M)
    (hdrained : ((BoundedQueue.new cap).runTagged sched).2.buffer = []) :
    verify_items
        ((List.range M).map
          (fun j => project (P + j) (taggedPops ((BoundedQueue.new cap).runTagged sched).1)))
        P K = VerifyResult.returned true := by
  obtain ⟨hnd, hbnd, hcls, hlen⟩ := drained_run_facts P K cap sched hK hP hprod hpushers hdrained
  generalize taggedPops ((BoundedQueue.new cap).runTagged sched).1 = Tp at hnd hbnd hcls hlen hpoppers ⊢
  have hPK : P * K ≤ P * 1000000 := Nat.mul_le_mul_left P hK
  have hcount : (((List.range M).map (fun j => project (P + j) Tp)).map List.length).sum = P * K := by
    rw [List.map_map]
    have := list_range_sum (fun j => (project (P + j) Tp).length) M
    rw [← length_eq_sum_project Tp P M hpoppers, hlen] at this
    exact this
  have hmem : ∀ c ∈ (List.range M).map (fun j => project (P + j) Tp),
      c.Sublist (Tp.map Prod.snd) := by
    intro c hc
    obtain ⟨j, _, rfl⟩ := List.mem_map.1 hc
    exact project_sublist _ _
  refine ((verify_items_spec _ (P : Int) (K : Int) (Int.natCast_nonneg P) ?_ ?_ ?_).1).2 ⟨?_, ?_, ?_⟩
  · intro c hc x hx
    exact hbnd x ((hmem c hc).subset hx)
  · rw [hcount]
    omega
  · have : ((P : Int) * (K : Int)) = ((P * K : Nat) : Int) := by push_cast; rfl
    rw [this]
    omega
  · unfold NoDuplicates
    rw [List.nodup_flatten]
    constructor
    · intro c hc
      exact List.Nodup.sublist (hmem c hc) hnd
    · rw [List.pairwise_map]
      refine List.Pairwise.imp ?_ (List.nodup_range M)
      intro i j hij x hxi hxj
      rw [mem_project] at hxi hxj
      have := List.inj_on_of_nodup_map hnd hxi hxj rfl
      simp only [Prod.mk.injEq, and_true] at this
      omega
  · intro c hc p
    exact List.Pairwise.sublist
      (List.Sublist.map _ (List.Sublist.filter _ (hmem c hc))) (hcls p)
  · unfold TotalMatches
    rw [hcount]
    push_cast
    rfl

/-- Two producers with two items each and two consumers on a queue of capacity
1: thread 1 blocks on the full queue, thread 3 on the empty one, thread 4 (the
main thread) closes, and the collected lists pass the verification. -/
theorem verification_passes_witness :
    verify_items
        ((List.range 2).map
          (fun j => project (2 + j) (taggedPops ((BoundedQueue.new 1).runTagged
            [(0, Op.push 0), (1, Op.push 1000000), (2, Op.pop 0), (1, Op.push 1000000),
             (3, Op.pop 0), (3, Op.pop 0), (0, Op.push 1), (2, Op.pop 0),
             (1, Op.push 1000001), (4, Op.close), (3, Op.pop 0), (2, Op.pop 0),
             (3, Op.pop 0)]).1)))
        (2 : Nat) (2 : Nat) = VerifyResult.returned true :=
  verification_passes 2 2 2 1
    [(0, Op.push 0), (1, Op.push 1000000), (2, Op.pop 0), (1, Op.push 1000000),
     (3, Op.pop 0), (3, Op.pop 0), (0, Op.push 1), (2, Op.pop 0),
     (1, Op.push 1000001), (4, Op.close), (3, Op.pop 0), (2, Op.pop 0),
     (3, Op.pop 0)]
    (by decide) (by decide) (by decide) (by decide) (by decide) (by decide)
